import Mathlib

/-!
# Verification of the macromania expression evaluator

A shallow embedding, in Lean 4, of the core of the macromania
macro-expansion engine:

* the log-level resolution of `logLevelStacks.ts` and `loggingBackend.ts`,
* the evaluation-tree positions of `evaluationTreePosition.ts`
  (the `Stack<number>` variant, whose `appendChild` takes the child index),
* the `Context` evaluator embedded in `tests.tsx` (the variant with
  fragment / impure / lifecycle / map / macro expressions and
  `simplifyExpressionsArray`), and
* the adjacent-string merging of the older `mod.ts` fragment pass.

User-supplied callback functions (the functions stored in impure, lifecycle
and map expressions) are modelled as pure Lean functions from the observable
part of the evaluation context and an external "closure state" of type `U`
to a result together with an updated closure state; a thrown JavaScript
value is modelled by an explicit `Thrown` result.  The evaluator itself is
written with a fuel parameter, consumed by one on every recursive call, so
that all definitions are structurally recursive and executable.
-/

namespace Macromania

/-! ## Log levels (`loggingBackend.ts`) -/

/-- The five log levels of `loggingBackend.ts`. -/
inductive LogLevel where
  | debug
  | trace
  | info
  | warn
  | error
deriving DecidableEq, Repr

/-- `levelToInt` from `loggingBackend.ts`. -/
def levelToInt : LogLevel → Nat
  | .debug => 0
  | .trace => 1
  | .info => 2
  | .warn => 3
  | .error => 4

/-- `logGte` from `loggingBackend.ts`: is the first level of greater or
equal priority than the second? -/
def logGte (fst snd : LogLevel) : Bool :=
  levelToInt snd ≤ levelToInt fst

/-! ## Log level stacks (`logLevelStacks.ts`)

Macro identity (the `Map` key, a function object in the source) is modelled
by a natural number.  Stacks are lists with the top at the head, matching
the linked-list `Stack` of `stack.ts` (`push` is cons, `pop` of the empty
stack is the empty stack, `peek` is `head?`). -/

/-- The state of a `LogLevelStacks` object: the default-scope stack and the
per-macro map of stacks, modelled as an association list. -/
structure LogLevelStacks where
  defaultLevel : List LogLevel
  perMacroLevels : List (Nat × List LogLevel)

/-- `Map.get` on the per-macro map. -/
def perMacroGet (m : Nat) : List (Nat × List LogLevel) → Option (List LogLevel)
  | [] => none
  | (k, s) :: rest => if k = m then some s else perMacroGet m rest

/-- `LogLevelStacks.shouldLog` from `logLevelStacks.ts`.  The
`macro = undefined` branch compares against the top of the default stack,
falling back to `"info"`; the branch for a macro with no per-macro stack
re-runs the default branch (the source calls `this.shouldLog(level,
undefined)`).  A present-but-empty per-macro stack makes the source read
`peek()!` as `undefined`, which `levelToInt` maps through its final else
branch to `4`; that unreachable case is rendered as comparing against
`error`. -/
def shouldLog (st : LogLevelStacks) (level : LogLevel) (mac : Option Nat) : Bool :=
  match mac with
  | none =>
    match st.defaultLevel.head? with
    | none => logGte level .info
    | some tos => logGte level tos
  | some m =>
    match perMacroGet m st.perMacroLevels with
    | none =>
      match st.defaultLevel.head? with
      | none => logGte level .info
      | some tos => logGte level tos
    | some perMacroStack =>
      match perMacroStack.head? with
      | some tos => logGte level tos
      | none => logGte level .error

/-- The threshold resolution order stated by the specification: the top of
the macro's private stack when that macro currently has one, otherwise the
top of the default stack, otherwise the fixed baseline `info`. -/
def resolveThreshold (st : LogLevelStacks) (mac : Option Nat) : LogLevel :=
  match mac with
  | some m =>
    match perMacroGet m st.perMacroLevels with
    | some (t :: _) => t
    | _ => (st.defaultLevel.head?).getD .info
  | none => (st.defaultLevel.head?).getD .info

/-- Well-formedness maintained by `pushLevel`/`popLevel`: `popLevel`
deletes a macro's map entry as soon as its stack becomes empty, so a stored
per-macro stack is never empty. -/
def wfStacks (st : LogLevelStacks) : Prop :=
  ∀ p ∈ st.perMacroLevels, p.2 ≠ []

/-! ## Evaluation tree positions

Port of the `Stack<number>` variant of `EvaluationTreePosition` (the one
used by the `tests.tsx` evaluator, whose `appendChild` takes the child
index).  The linked-list stack is a `List Nat` with the top at the head.
JavaScript reference equality (`===`) between stacks is rendered as
structural list equality; within a single evaluation all position stacks
are built over one shared root object, so reference equality of two stacks
either coincides with structural equality or differs only on
structurally-equal stacks recorded in different rounds, where the
surrounding loops behave identically either way (the divergence points
compare `peek()` contents, which agree). -/

/-- `Stack.pop`: popping the empty stack yields the empty stack. -/
def stackPop : List Nat → List Nat
  | [] => []
  | _ :: rest => rest

/-- Iterated `Stack.pop`. -/
def stackPopMany : Nat → List Nat → List Nat
  | 0, s => s
  | n + 1, s => stackPopMany n (stackPop s)

/-- An `EvaluationTreePosition`: a depth and a stack of child indices. -/
structure EvaluationTreePosition where
  theDepth : Nat
  stack : List Nat
deriving DecidableEq, Repr

/-- The root position: depth `0`, empty path. -/
def rootEtp : EvaluationTreePosition := ⟨0, []⟩

/-- `appendChild`: depth plus one, index pushed. -/
def appendChild (p : EvaluationTreePosition) (indexInParent : Nat) :
    EvaluationTreePosition :=
  ⟨p.theDepth + 1, indexInParent :: p.stack⟩

/-- `stacksOfEqualLengthEq`.  The source's `snd === undefined` tests are
against a stack object and never fire; an empty `snd` under a nonempty
`fst` fails the `fstTos === sndTos!` comparison against `undefined`. -/
def stacksOfEqualLengthEq (fst snd : List Nat) : Bool :=
  if fst = snd then
    true
  else
    match fst, snd with
    | [], _ => false
    | _ :: _, [] => false
    | a :: fst', b :: snd' => a = b && stacksOfEqualLengthEq fst' snd'

/-- `EvaluationTreePosition.equals`. -/
def etpEquals (p q : EvaluationTreePosition) : Bool :=
  if p.theDepth ≠ q.theDepth then false
  else stacksOfEqualLengthEq p.stack q.stack

/-- The candidate-tracking loop inside `deepestCommonAncestor`, entered
after both stacks have been popped to equal depth. -/
def dcaLoop (myStack otherStack : List Nat) (myDepth : Nat)
    (candidate : List Nat) (candidateDepth : Nat) : Nat × List Nat :=
  match myDepth with
  | 0 => (candidateDepth, candidate)
  | d + 1 =>
    if myStack = otherStack then
      (candidateDepth, candidate)
    else
      let unequalTos : Bool := myStack.head? ≠ otherStack.head?
      let myStack' := stackPop myStack
      let otherStack' := stackPop otherStack
      if unequalTos then
        dcaLoop myStack' otherStack' d myStack' d
      else
        dcaLoop myStack' otherStack' d candidate candidateDepth

/-- `EvaluationTreePosition.deepestCommonAncestor`. -/
def deepestCommonAncestor (p q : EvaluationTreePosition) :
    EvaluationTreePosition :=
  let myStack := stackPopMany (p.theDepth - q.theDepth) p.stack
  let otherStack := stackPopMany (q.theDepth - p.theDepth) q.stack
  let depth := min p.theDepth q.theDepth
  let r := dcaLoop myStack otherStack depth myStack depth
  ⟨r.1, r.2⟩

/-- The popping loop inside `isEarlierThan`:
`for (let i = start; i + 1 > dcaDepth; i--) stack = stack.pop()` executes
exactly `(start + 1) - dcaDepth` pops (truncated subtraction: none when
`dcaDepth > start`). -/
def earlierPops (start dcaDepth : Nat) (s : List Nat) : List Nat :=
  stackPopMany (start + 1 - dcaDepth) s

/-- `EvaluationTreePosition.isEarlierThan` (the variant whose final
comparison is guarded by `myStack.isEmpty()`).  A `peek()!` against an
exhausted other stack compares a number with `undefined`, which is false. -/
def isEarlierThan (p q : EvaluationTreePosition) : Bool :=
  let dca := deepestCommonAncestor p q
  if p.stack = dca.stack then
    true
  else if q.stack = dca.stack then
    false
  else
    let myStack := earlierPops p.theDepth dca.theDepth p.stack
    let otherStack := earlierPops q.theDepth dca.theDepth q.stack
    match myStack, otherStack with
    | [], _ => true
    | a :: _, b :: _ => a ≤ b
    | _ :: _, [] => false

/-- `EvaluationTreePosition.isStrictlyEarlierThan`. -/
def isStrictlyEarlierThan (p q : EvaluationTreePosition) : Bool :=
  isEarlierThan p q && !etpEquals p q

/-- `EvaluationTreePosition.isLaterThan`. -/
def isLaterThan (p q : EvaluationTreePosition) : Bool :=
  isEarlierThan q p

/-- `EvaluationTreePosition.isStrictlyLaterThan`. -/
def isStrictlyLaterThan (p q : EvaluationTreePosition) : Bool :=
  isStrictlyEarlierThan q p

/-! ## The expression data model (`tests.tsx`)

`DebuggingInformation` is reduced to the two components the evaluator
inspects or stores: the `isPrimary` flag and a name, standing in for the
source-location fields. -/

/-- Debugging information attached to every non-string expression. -/
structure DebugInfo where
  isPrimary : Bool
  name : Nat
deriving DecidableEq, Repr

/-- The `dbg: Object` the map case uses for its
`fragmentExp(["", mapped], \x7b\x7d)` wrapper: `isPrimary` is absent,
hence falsy. -/
def emptyDbg : DebugInfo := ⟨false, 0⟩

/-- A thrown JavaScript value: either the internal `haltEvaluation` symbol
or any other exception, tagged by a number. -/
inductive Thrown where
  | halt
  | err (code : Nat)
deriving DecidableEq, Repr

/-- The part of the `Context` that callback functions can observe through
the public accessors (`getDebuggingStack`, `getEvaluationTreePosition`,
`mustMakeProgress`, `getRound`, and `didGiveUp` via
`madeProgressThisRound`). -/
structure CtxView where
  stack : List DebugInfo
  etp : EvaluationTreePosition
  haveToMakeProgress : Bool
  round : Nat
  madeProgressThisRound : Bool

/-- The `Expression` type of the `tests.tsx` evaluator.  `U` is the type of
the external closure state shared by the callback functions; each callback
receives the observable context and the current closure state and returns
its result together with the updated closure state.

* `impure` callbacks return `Except.error t` for a thrown value,
  `Except.ok none` for the `null` (pending) signal, and
  `Except.ok (some e)` for a replacement expression.
* `lifecycle` hooks return `some t` when they throw and `none` otherwise.
* `map` callbacks return the new expression or a thrown value. -/
inductive Expression (U : Type) where
  | str (s : String)
  | fragment (children : List (Expression U)) (dbg : DebugInfo)
  | impure (f : CtxView → U → (Except Thrown (Option (Expression U))) × U)
      (dbg : DebugInfo)
  | lifecycle (inner : Expression U)
      (pre : CtxView → U → Option Thrown × U)
      (post : CtxView → U → Option Thrown × U) (dbg : DebugInfo)
  | map (inner : Expression U)
      (f : String → CtxView → U → (Except Thrown (Expression U)) × U)
      (dbg : DebugInfo)
  | macroExp (inner : Expression U) (dbg : DebugInfo)

/-- The debugging information of a non-string expression (strings carry
none and are filtered out before it is read). -/
def dbgOf : Expression U → DebugInfo
  | .str _ => emptyDbg
  | .fragment _ d => d
  | .impure _ d => d
  | .lifecycle _ _ _ d => d
  | .map _ _ d => d
  | .macroExp _ d => d

/-- The mutable state of a `Context` during evaluation, restricted to the
fields the evaluator reads or writes (the keyed state map, the logging
formatter, the log-level stacks and the warned-or-worse flag play no role
in the claims below).  `preEvents`/`postEvents` are ghost instrumentation:
the evaluator records the `dbg.name` of a lifecycle expression at the
moment it invokes the `pre` respectively `post` hook, and nothing ever
reads them back. -/
structure EvalState (U : Type) where
  stack : List DebugInfo
  etp : EvaluationTreePosition
  haveToMakeProgress : Bool
  round : Nat
  madeProgressThisRound : Bool
  preEvents : List Nat
  postEvents : List Nat
  user : U

/-- The state of a freshly constructed `Context`. -/
def initState (u : U) : EvalState U :=
  { stack := []
    etp := rootEtp
    haveToMakeProgress := false
    round := 0
    madeProgressThisRound := false
    preEvents := []
    postEvents := []
    user := u }

/-- The observable view handed to callbacks. -/
def ctxView (st : EvalState U) : CtxView :=
  ⟨st.stack, st.etp, st.haveToMakeProgress, st.round, st.madeProgressThisRound⟩

/-- `Context.didGiveUp`. -/
def didGiveUp (st : EvalState U) : Bool :=
  st.haveToMakeProgress && !st.madeProgressThisRound

/-- Push the debugging information when it is primary
(`if (exp.dbg.isPrimary) this.stack = this.stack.push(exp.dbg)`). -/
def pushDbgIf (d : DebugInfo) (st : EvalState U) : EvalState U :=
  if d.isPrimary then { st with stack := d :: st.stack } else st

/-- Pop the debugging information when it is primary
(`if (exp.dbg.isPrimary) this.stack = this.stack.pop()`). -/
def popDbgIf (d : DebugInfo) (st : EvalState U) : EvalState U :=
  if d.isPrimary then { st with stack := st.stack.tail } else st

/-- Overwrite the current evaluation tree position. -/
def setEtp (st : EvalState U) (p : EvaluationTreePosition) : EvalState U :=
  { st with etp := p }

/-- Overwrite the closure state after a callback returns. -/
def setUser (st : EvalState U) (u : U) : EvalState U :=
  { st with user := u }

/-- `this.madeProgressThisRound = true`. -/
def setProgress (st : EvalState U) : EvalState U :=
  { st with madeProgressThisRound := true }

/-- Ghost record of a `pre` hook invocation. -/
def recordPre (d : DebugInfo) (st : EvalState U) : EvalState U :=
  { st with preEvents := d.name :: st.preEvents }

/-- Ghost record of a `post` hook invocation. -/
def recordPost (d : DebugInfo) (st : EvalState U) : EvalState U :=
  { st with postEvents := d.name :: st.postEvents }

/-- Outcome of `doEvaluate`: a resulting expression and state, a thrown
value propagating with the state as it was at the throw point, or fuel
exhaustion of the model. -/
inductive DRes (U : Type) where
  | ok (e : Expression U) (st : EvalState U)
  | thrown (t : Thrown) (st : EvalState U)
  | fuelOut

/-- Outcome of the fragment-children loop. -/
inductive CRes (U : Type) where
  | ok (es : List (Expression U)) (st : EvalState U)
  | thrown (t : Thrown) (st : EvalState U)
  | fuelOut

/-- The common postlude of `doEvaluate`: pop the debugging information on
the normal return path only (the source has no `try`/`finally`, so a
thrown value leaves the stack as it was at the throw point). -/
def applyPop (d : DebugInfo) : DRes U → DRes U
  | .ok e st => .ok e (popDbgIf d st)
  | r => r

/-- `simplifyExpressionsArray` from `tests.tsx`: the empty array becomes
the empty string, a singleton becomes its element, an all-string array is
joined, and any other array is returned as is.  `Sum.inl` is the
`string | Expression` return, `Sum.inr` the `Expression[]` return. -/
def simplifyExpressionsArray (exps : List (Expression U)) :
    Sum (Expression U) (List (Expression U)) :=
  match exps with
  | [] => .inl (.str "")
  | [e] => .inl e
  | es =>
    if es.all fun e => match e with | .str _ => true | _ => false then
      .inl (.str (String.join (es.filterMap fun e =>
        match e with | .str s => some s | _ => none)))
    else
      .inr es

mutual

/-- `Context.doEvaluate` from `tests.tsx`.  Strings are returned
unchanged; for every other expression the debugging information is pushed
when primary, the per-variant body runs, and the debugging information is
popped again on the normal return path only (the source has no
`try`/`finally`, so a thrown value skips the pop).  The source assigns the
recursive continuation promises of the impure and map cases without
`await`; they are modelled as awaited, which only hoists this pop past the
suspended part of the continuation and is observationally equal for the
runs considered here. -/
def doEvaluate : Nat → Expression U → EvalState U → DRes U
  | 0, _, _ => .fuelOut
  | fuel + 1, exp, st =>
    match exp with
    | .str s => .ok (.str s) st
    | e => applyPop (dbgOf e) (doEvalBody fuel e (pushDbgIf (dbgOf e) st))

/-- The per-variant case analysis inside `Context.doEvaluate`. -/
def doEvalBody : Nat → Expression U → EvalState U → DRes U
  | 0, _, _ => .fuelOut
  | fuel + 1, exp, st =>
    match exp with
    | .str s => .ok (.str s) st
    | .fragment children d =>
      match evalChildren fuel st.etp children 0 [] st with
      | .ok allEvaluated st' =>
        match simplifyExpressionsArray allEvaluated with
        | .inl e => .ok e st'
        | .inr compressed => .ok (.fragment compressed d) st'
      | .thrown t st' => .thrown t st'
      | .fuelOut => .fuelOut
    | .impure f d =>
      let out := f (ctxView st) st.user
      let st1 := setUser st out.2
      match out.1 with
      | .error t => .thrown t st1
      | .ok none => .ok (.impure f d) st1
      | .ok (some unthunk) => doEvaluate fuel unthunk (setProgress st1)
    | .lifecycle inner pre post d =>
      let stPre := recordPre d st
      let pr := pre (ctxView stPre) stPre.user
      let st1 := setUser stPre pr.2
      match pr.1 with
      | some t => .thrown t st1
      | none =>
        match doEvaluate fuel inner st1 with
        | .ok evaluated st2 =>
          let stPost := recordPost d st2
          let po := post (ctxView stPost) stPost.user
          let st3 := setUser stPost po.2
          match po.1 with
          | some t => .thrown t st3
          | none =>
            match evaluated with
            | .str s => .ok (.str s) st3
            | ev => .ok (.lifecycle ev pre post d) st3
        | r => r
    | .map inner f d =>
      let oldEtp := st.etp
      match doEvaluate fuel inner (setEtp st (appendChild oldEtp 0)) with
      | .ok evaluated st1 =>
        let st2 := setEtp st1 oldEtp
        match evaluated with
        | .str s =>
          let mr := f s (ctxView st2) st2.user
          let st3 := setUser st2 mr.2
          match mr.1 with
          | .error t => .thrown t st3
          | .ok mapped =>
            doEvaluate fuel (.fragment [.str "", mapped] emptyDbg) st3
        | ev => .ok (.map ev f d) st2
      | r => r
    | .macroExp inner d =>
      let oldEtp := st.etp
      match doEvaluate fuel inner (setEtp st (appendChild oldEtp 0)) with
      | .ok evaled st1 =>
        let st2 := setEtp st1 oldEtp
        match evaled with
        | .str s => .ok (.str s) st2
        | ev => .ok (.macroExp ev d) st2
      | r => r

/-- The `for` loop of the fragment case: each child is evaluated at the
tree position `oldEtp.appendChild(i)`, which is restored afterwards; a
thrown value propagates with the position still pointing at the child. -/
def evalChildren : Nat → EvaluationTreePosition → List (Expression U) →
    Nat → List (Expression U) → EvalState U → CRes U
  | 0, _, _, _, _, _ => .fuelOut
  | fuel + 1, oldEtp, children, i, acc, st =>
    match children with
    | [] => .ok acc.reverse st
    | c :: rest =>
      match doEvaluate fuel c (setEtp st (appendChild oldEtp i)) with
      | .ok e' st' =>
        evalChildren fuel oldEtp rest (i + 1) (e' :: acc) (setEtp st' oldEtp)
      | .thrown t st' => .thrown t st'
      | .fuelOut => .fuelOut

end

/-- Outcome of the round loop inside `Context.evaluate`. -/
inductive LoopOut (U : Type) where
  | ok (s : String) (st : EvalState U)
  | gaveUp (st : EvalState U)
  | thrown (t : Thrown) (st : EvalState U)
  | fuelOut

/-- Round bookkeeping at the bottom of the loop:
`this.round += 1; this.madeProgressThisRound = false`. -/
def nextRound (st : EvalState U) : EvalState U :=
  { st with round := st.round + 1, madeProgressThisRound := false }

/-- The flag update of the give-up protocol:
`this.haveToMakeProgress = true`. -/
def setMustProgress (st : EvalState U) : EvalState U :=
  { st with haveToMakeProgress := true }

/-- The round loop of `Context.evaluate` (`tests.tsx`): evaluate once;
on a string, return it; otherwise, if no impure expression made progress,
either give up (when `haveToMakeProgress` was already set) or set
`haveToMakeProgress`; then advance the round and loop. -/
def evalLoop : Nat → Expression U → EvalState U → LoopOut U
  | 0, _, _ => .fuelOut
  | fuel + 1, exp, st =>
    match exp with
    | .str s => .ok s st
    | e =>
      match doEvaluate fuel e st with
      | .thrown t st' => .thrown t st'
      | .fuelOut => .fuelOut
      | .ok e' st' =>
        if st'.madeProgressThisRound then
          evalLoop fuel e' (nextRound st')
        else if st'.haveToMakeProgress then
          .gaveUp st'
        else
          evalLoop fuel e' (nextRound (setMustProgress st'))

/-- Outcome of `Context.evaluate`: the resulting string, the `null` return
(give-up or a caught `haltEvaluation`), a rethrown non-halt exception, or
fuel exhaustion of the model. -/
inductive EvalOut (U : Type) where
  | ok (s : String) (st : EvalState U)
  | fail (st : EvalState U)
  | err (t : Thrown) (st : EvalState U)
  | fuelOut

/-- `Context.evaluate`: run the round loop inside the `try`/`catch` that
converts a thrown `haltEvaluation` into the `null` return and rethrows
everything else. -/
def evaluate (fuel : Nat) (exp : Expression U) (st : EvalState U) : EvalOut U :=
  match evalLoop fuel exp st with
  | .ok s st' => .ok s st'
  | .gaveUp st' => .fail st'
  | .thrown t st' => if t = .halt then .fail st' else .err t st'
  | .fuelOut => .fuelOut

/-- The string produced by a successful evaluation. -/
def resultString : EvalOut U → Option String
  | .ok s _ => some s
  | _ => none

/-- Did `evaluate` return `null`? -/
def isFailOut : EvalOut U → Bool
  | .fail _ => true
  | _ => false

/-- The context state after `evaluate` returned (none on fuel
exhaustion). -/
def stateAfter : EvalOut U → Option (EvalState U)
  | .ok _ st => some st
  | .fail st => some st
  | .err _ st => some st
  | .fuelOut => none

/-- `didGiveUp()` queried after `evaluate` returned. -/
def didGiveUpAfter (r : EvalOut U) : Bool :=
  (stateAfter r).elim false didGiveUp

/-! ## The `mod.ts` fragment pass

The fragment case of the older `mod.ts` evaluator merges adjacent strings
while collecting evaluated children, instead of calling
`simplifyExpressionsArray`.  Its loop only distinguishes strings from
non-strings, so it is ported over the same expression type. -/

/-- `evaluated[evaluated.length - 1] = last.concat(innerEvaluated)`.  The
accumulator is kept reversed, so the last element is the head; the flag
discipline of the loop guarantees the head is a string when this is
called. -/
def mergeIntoLast (acc : List (Expression U)) (s : String) :
    List (Expression U) :=
  match acc with
  | .str t :: rest => .str (t ++ s) :: rest
  | other => other

/-- The collection loop of the `mod.ts` fragment case: `prevStr` is
`previousEvaluatedToString`, `acc` the `evaluated` array in reverse. -/
def modMergeLoop (acc : List (Expression U)) (prevStr : Bool) :
    List (Expression U) → List (Expression U)
  | [] => acc.reverse
  | c :: rest =>
    match c with
    | .str s =>
      if prevStr then
        modMergeLoop (mergeIntoLast acc s) true rest
      else
        modMergeLoop (.str s :: acc) true rest
    | e => modMergeLoop (e :: acc) false rest

/-- Merging stated the way the specification words it: every maximal run
of consecutive string entries becomes a single entry holding their
concatenation, everything else is kept in place. -/
def mergeRunsSpec : List (Expression U) → List (Expression U)
  | [] => []
  | .str s :: rest =>
    match mergeRunsSpec rest with
    | .str t :: r => .str (s ++ t) :: r
    | r => .str s :: r
  | e :: rest => e :: mergeRunsSpec rest

/-! ## Invariant predicates -/

/-- The pre and post ghost logs grew by the same multiset: for every tag,
the number of new `pre` records equals the number of new `post` records. -/
def balanced (st st' : EvalState U) : Prop :=
  ∀ x, st'.preEvents.count x + st.postEvents.count x =
    st'.postEvents.count x + st.preEvents.count x

/-- The invariant a normally-returning reduction step preserves: the
diagnostic stack is restored, and lifecycle `pre`/`post` invocations are
paired. -/
def okInv (st st' : EvalState U) : Prop :=
  st'.stack = st.stack ∧ balanced st st'

/-! ## Concrete inputs used by witnesses and counterexamples -/

/-- An effect that signals pending on every invocation. -/
def alwaysPendingEff : Expression Unit :=
  .impure (fun _ u => (Except.ok none, u)) emptyDbg

/-- An effect that produces its fallback exactly when
`mustMakeProgress()` is true. -/
def graceEff : Expression Unit :=
  .impure (fun c u =>
    (if c.haveToMakeProgress then Except.ok (some (.str "fallback"))
     else Except.ok none, u)) emptyDbg

/-- An effect that returns pending on its first `k` invocations and the
literal `s` on invocation `k + 1`, counting its invocations in the first
closure-state component and recording `getRound()` of the resolving
invocation in the second (the closure-counter idiom of the repository's
own tests). -/
def pendingK (k : Nat) (s : String) : Expression (Nat × Nat) :=
  .impure (fun c u =>
    (if u.1 < k then Except.ok none else Except.ok (some (.str s)),
     (u.1 + 1, if u.1 < k then u.2 else c.round))) emptyDbg

/-- The tree position recorded for the first child of a top-level
fragment. -/
def etpChild0 : EvaluationTreePosition := appendChild rootEtp 0

/-- The tree position recorded for the second child of the same
fragment. -/
def etpChild1 : EvaluationTreePosition := appendChild rootEtp 1

/-- A one-literal fragment; evaluating it succeeds without any impure
progress. -/
def pureFrag : Expression Unit := .fragment [.str "a"] emptyDbg

/-- An effect whose function calls `ctx.halt()`. -/
def haltingEff : Expression Unit :=
  .impure (fun _ u => (Except.error Thrown.halt, u)) emptyDbg

/-- A lifecycle hook that returns normally and changes nothing. -/
def noopHook : CtxView → Unit → Option Thrown × Unit :=
  fun _ u => (none, u)

/-- A lifecycle wrapper (tag 7) whose inner expression halts. -/
def lifecycleHalt : Expression Unit :=
  .lifecycle haltingEff noopHook noopHook ⟨false, 7⟩

/-- Primary debugging information (tag 5). -/
def primaryDbg : DebugInfo := ⟨true, 5⟩

/-- A fragment carrying primary debugging information whose only child
halts during reduction. -/
def fragWithHalt : Expression Unit := .fragment [haltingEff] primaryDbg

/-- The state `doEvaluate` leaves behind when `fragWithHalt` throws the
halt signal: the primary frame is still on the diagnostic stack and the
tree position still points at the child. -/
def stAfterHalt : EvalState Unit :=
  { stack := [primaryDbg]
    etp := ⟨1, [0]⟩
    haveToMakeProgress := false
    round := 0
    madeProgressThisRound := false
    preEvents := []
    postEvents := []
    user := () }

/-- An effect whose function throws an exception other than the halt
signal (tagged 9). -/
def throwingEff : Expression Unit :=
  .impure (fun _ u => (Except.error (Thrown.err 9), u)) emptyDbg

/-- The state carried by a round-loop outcome that concluded normally:
either success or the give-up return. -/
def loopOkOrGaveUp : LoopOut U → Option (EvalState U)
  | .ok _ st => some st
  | .gaveUp st => some st
  | _ => none

/-- The state left behind by one attempt at an impure expression whose
function returned the pending signal. -/
def pendingRoundState
    (f : CtxView → U → (Except Thrown (Option (Expression U))) × U)
    (d : DebugInfo) (st : EvalState U) : EvalState U :=
  popDbgIf d (setUser (pushDbgIf d st)
    (f (ctxView (pushDbgIf d st)) (pushDbgIf d st).user).2)

/-- The state left behind by an attempt at an impure expression whose
function returned a replacement that was already a string. -/
def resolveRoundState
    (g : CtxView → U → (Except Thrown (Option (Expression U))) × U)
    (d : DebugInfo) (st : EvalState U) : EvalState U :=
  popDbgIf d (setProgress (setUser (pushDbgIf d st)
    (g (ctxView (pushDbgIf d st)) (pushDbgIf d st).user).2))

/-- A lifecycle wrapper (tag 7) around a literal; evaluation concludes
successfully. -/
def lifeDone : Expression Unit :=
  .lifecycle (.str "x") noopHook noopHook ⟨false, 7⟩

/-- The state after evaluating `lifeDone`: one `pre` and one `post`
record. -/
def stLife : EvalState Unit :=
  { stack := []
    etp := rootEtp
    haveToMakeProgress := true
    round := 1
    madeProgressThisRound := false
    preEvents := [7]
    postEvents := [7]
    user := () }

/-- The state after `lifecycleHalt` aborts evaluation: `pre` ran once,
`post` never did. -/
def stC4halt : EvalState Unit :=
  { stack := []
    etp := rootEtp
    haveToMakeProgress := false
    round := 0
    madeProgressThisRound := false
    preEvents := [7]
    postEvents := []
    user := () }

/-- A fragment whose children reduce to two strings followed by a
still-pending effect. -/
def fragMixed : Expression Unit :=
  .fragment [.str "a", .str "b", alwaysPendingEff] emptyDbg

/-! # Theorems -/

/-! ## State bookkeeping lemmas -/

theorem pushDbgIf_preEvents (d : DebugInfo) (st : EvalState U) :
    (pushDbgIf d st).preEvents = st.preEvents := by
  unfold pushDbgIf; split <;> rfl

theorem pushDbgIf_postEvents (d : DebugInfo) (st : EvalState U) :
    (pushDbgIf d st).postEvents = st.postEvents := by
  unfold pushDbgIf; split <;> rfl

theorem popDbgIf_preEvents (d : DebugInfo) (st : EvalState U) :
    (popDbgIf d st).preEvents = st.preEvents := by
  unfold popDbgIf; split <;> rfl

theorem popDbgIf_postEvents (d : DebugInfo) (st : EvalState U) :
    (popDbgIf d st).postEvents = st.postEvents := by
  unfold popDbgIf; split <;> rfl

/-! ## The invariant and its algebra -/

theorem okInv_refl (st : EvalState U) : okInv st st :=
  ⟨rfl, fun _ => Nat.add_comm _ _⟩

theorem okInv_trans {s1 s2 s3 : EvalState U} (h1 : okInv s1 s2)
    (h2 : okInv s2 s3) : okInv s1 s3 := by
  obtain ⟨a1, b1⟩ := h1
  obtain ⟨a2, b2⟩ := h2
  refine ⟨a2.trans a1, fun x => ?_⟩
  have c1 := b1 x
  have c2 := b2 x
  omega

theorem okInv_same {st st' : EvalState U} (hs : st'.stack = st.stack)
    (hp : st'.preEvents = st.preEvents) (hq : st'.postEvents = st.postEvents) :
    okInv st st' :=
  ⟨hs, fun x => by rw [hp, hq]; exact Nat.add_comm _ _⟩

theorem okInv_setUser {st : EvalState U} (u : U) : okInv st (setUser st u) :=
  okInv_same rfl rfl rfl

theorem okInv_setEtp {st : EvalState U} (p : EvaluationTreePosition) :
    okInv st (setEtp st p) :=
  okInv_same rfl rfl rfl

theorem okInv_setProgress {st : EvalState U} : okInv st (setProgress st) :=
  okInv_same rfl rfl rfl

theorem okInv_nextRound {st : EvalState U} : okInv st (nextRound st) :=
  okInv_same rfl rfl rfl

theorem okInv_push_pop {st st2 : EvalState U} (d : DebugInfo)
    (h : okInv (pushDbgIf d st) st2) : okInv st (popDbgIf d st2) := by
  obtain ⟨hs, hb⟩ := h
  unfold pushDbgIf at hs
  constructor
  · unfold popDbgIf
    by_cases hp : d.isPrimary
    · rw [if_pos hp] at hs
      rw [if_pos hp]
      simp at hs
      simp [hs]
    · rw [if_neg hp] at hs
      rw [if_neg hp]
      exact hs
  · intro x
    have c := hb x
    rw [pushDbgIf_preEvents, pushDbgIf_postEvents] at c
    rw [popDbgIf_preEvents, popDbgIf_postEvents]
    exact c

theorem okInv_wrap_lifecycle {st st2 : EvalState U} {d : DebugInfo} {a b : U}
    (h : okInv (setUser (recordPre d st) a) st2) :
    okInv st (setUser (recordPost d st2) b) := by
  obtain ⟨hs, hb⟩ := h
  constructor
  · simpa [setUser, recordPre, recordPost] using hs
  · intro x
    have c := hb x
    simp only [setUser, recordPre, recordPost, List.count_cons] at c ⊢
    omega

theorem applyPop_ok {r : DRes U} {d : DebugInfo} {e' : Expression U}
    {st' : EvalState U} (h : applyPop d r = DRes.ok e' st') :
    ∃ st2, r = DRes.ok e' st2 ∧ st' = popDbgIf d st2 := by
  cases r with
  | ok a b =>
    unfold applyPop at h
    injection h with h1 h2
    exact ⟨b, by rw [h1], h2.symm⟩
  | thrown t s => exact absurd h (by unfold applyPop; simp)
  | fuelOut => exact absurd h (by unfold applyPop; simp)

/-! ## Normal returns restore the stack and pair the lifecycle hooks -/

theorem evalInvariants (fuel : Nat) :
    (∀ (e : Expression U) st e' st',
      doEvaluate fuel e st = .ok e' st' → okInv st st') ∧
    (∀ (e : Expression U) st e' st',
      doEvalBody fuel e st = .ok e' st' → okInv st st') ∧
    (∀ oldEtp (cs : List (Expression U)) i acc st es st',
      evalChildren fuel oldEtp cs i acc st = .ok es st' → okInv st st') := by
  induction fuel with
  | zero =>
    refine ⟨?_, ?_, ?_⟩
    · intro e st e' st' h
      exact absurd h (by simp [doEvaluate])
    · intro e st e' st' h
      exact absurd h (by simp [doEvalBody])
    · intro oldEtp cs i acc st es st' h
      exact absurd h (by simp [evalChildren])
  | succ fuel ih =>
    obtain ⟨ihD, ihB, ihC⟩ := ih
    refine ⟨?_, ?_, ?_⟩
    · -- doEvaluate
      intro e st e' st' h
      simp only [doEvaluate] at h
      split at h
      · cases h
        exact okInv_refl _
      · obtain ⟨st2, hb, rfl⟩ := applyPop_ok h
        exact okInv_push_pop _ (ihB _ _ _ _ hb)
    · -- doEvalBody
      intro e st e' st' h
      cases e with
      | str s =>
        simp only [doEvalBody] at h
        cases h
        exact okInv_refl _
      | fragment cs d =>
        simp only [doEvalBody] at h
        cases hc : evalChildren fuel st.etp cs 0 [] st with
        | ok es st1 =>
          rw [hc] at h
          dsimp only at h
          cases hs : simplifyExpressionsArray es <;> rw [hs] at h <;>
            (cases h; exact ihC _ _ _ _ _ _ _ hc)
        | thrown t st1 =>
          rw [hc] at h
          exact absurd h (by simp)
        | fuelOut =>
          rw [hc] at h
          exact absurd h (by simp)
      | impure f d =>
        simp only [doEvalBody] at h
        cases ho : (f (ctxView st) st.user).1 with
        | error t =>
          rw [ho] at h
          exact absurd h (by simp)
        | ok oe =>
          rw [ho] at h
          cases oe with
          | none =>
            dsimp only at h
            cases h
            exact okInv_setUser _
          | some unthunk =>
            dsimp only at h
            exact okInv_trans (okInv_trans (okInv_setUser _) okInv_setProgress)
              (ihD _ _ _ _ h)
      | lifecycle inner pre post d =>
        simp only [doEvalBody] at h
        cases hpr : (pre (ctxView (recordPre d st)) (recordPre d st).user).1 with
        | some t =>
          rw [hpr] at h
          exact absurd h (by simp)
        | none =>
          rw [hpr] at h
          dsimp only at h
          cases hin : doEvaluate fuel inner
              (setUser (recordPre d st)
                (pre (ctxView (recordPre d st)) (recordPre d st).user).2) with
          | ok ev st2 =>
            rw [hin] at h
            dsimp only at h
            have hmid := ihD _ _ _ _ hin
            cases hpo : (post (ctxView (recordPost d st2)) (recordPost d st2).user).1 with
            | some t =>
              rw [hpo] at h
              exact absurd h (by simp)
            | none =>
              rw [hpo] at h
              dsimp only at h
              split at h <;> (cases h; exact okInv_wrap_lifecycle hmid)
          | thrown t st2 =>
            rw [hin] at h
            exact absurd h (by simp)
          | fuelOut =>
            rw [hin] at h
            exact absurd h (by simp)
      | map inner f d =>
        simp only [doEvalBody] at h
        cases hin : doEvaluate fuel inner (setEtp st (appendChild st.etp 0)) with
        | ok ev st1 =>
          rw [hin] at h
          dsimp only at h
          have hmid := okInv_trans (okInv_setEtp _) (ihD _ _ _ _ hin)
          split at h
          · cases hmr : (f _ (ctxView (setEtp st1 st.etp)) (setEtp st1 st.etp).user).1 with
            | error t =>
              rw [hmr] at h
              exact absurd h (by simp)
            | ok mapped =>
              rw [hmr] at h
              dsimp only at h
              exact okInv_trans
                (okInv_trans (okInv_trans hmid (okInv_setEtp _)) (okInv_setUser _))
                (ihD _ _ _ _ h)
          · cases h
            exact okInv_trans hmid (okInv_setEtp _)
        | thrown t st1 =>
          rw [hin] at h
          exact absurd h (by simp)
        | fuelOut =>
          rw [hin] at h
          exact absurd h (by simp)
      | macroExp inner d =>
        simp only [doEvalBody] at h
        cases hin : doEvaluate fuel inner (setEtp st (appendChild st.etp 0)) with
        | ok ev st1 =>
          rw [hin] at h
          dsimp only at h
          have hmid := okInv_trans (okInv_setEtp _) (ihD _ _ _ _ hin)
          split at h <;> (cases h; exact okInv_trans hmid (okInv_setEtp _))
        | thrown t st1 =>
          rw [hin] at h
          exact absurd h (by simp)
        | fuelOut =>
          rw [hin] at h
          exact absurd h (by simp)
    · -- evalChildren
      intro oldEtp cs i acc st es st' h
      simp only [evalChildren] at h
      split at h
      · cases h
        exact okInv_refl _
      · cases hd : doEvaluate fuel _ (setEtp st (appendChild oldEtp i)) with
        | ok e2 st2 =>
          rw [hd] at h
          dsimp only at h
          exact okInv_trans
            (okInv_trans (okInv_trans (okInv_setEtp _) (ihD _ _ _ _ hd))
              (okInv_setEtp _))
            (ihC _ _ _ _ _ _ _ h)
        | thrown t st2 =>
          rw [hd] at h
          exact absurd h (by simp)
        | fuelOut =>
          rw [hd] at h
          exact absurd h (by simp)

theorem okInv_setMustProgress {st : EvalState U} :
    okInv st (setMustProgress st) :=
  okInv_same rfl rfl rfl

theorem evalLoop_inv (fuel : Nat) :
    ∀ (e : Expression U) st st',
      loopOkOrGaveUp (evalLoop fuel e st) = some st' → okInv st st' := by
  induction fuel with
  | zero =>
    intro e st st' h
    exact absurd h (by simp [evalLoop, loopOkOrGaveUp])
  | succ fuel ih =>
    intro e st st' h
    simp only [evalLoop] at h
    split at h
    · simp only [loopOkOrGaveUp, Option.some.injEq] at h
      cases h
      exact okInv_refl _
    · cases hd : doEvaluate fuel _ st with
      | ok e2 st2 =>
        rw [hd] at h
        dsimp only at h
        have h0 := (evalInvariants fuel).1 _ _ _ _ hd
        split at h
        · exact okInv_trans (okInv_trans h0 okInv_nextRound) (ih _ _ _ h)
        · split at h
          · simp only [loopOkOrGaveUp, Option.some.injEq] at h
            cases h
            exact h0
          · exact okInv_trans
              (okInv_trans h0 (okInv_trans okInv_setMustProgress okInv_nextRound))
              (ih _ _ _ h)
      | thrown t st2 =>
        rw [hd] at h
        exact absurd h (by simp [loopOkOrGaveUp])
      | fuelOut =>
        rw [hd] at h
        exact absurd h (by simp [loopOkOrGaveUp])

theorem popDbgIf_pushDbgIf (d : DebugInfo) (st : EvalState U) :
    popDbgIf d (pushDbgIf d st) = st := by
  by_cases hp : d.isPrimary <;> simp [pushDbgIf, popDbgIf, hp]

/-! ## Fragments of literals -/

theorem evalChildren_strings :
    ∀ (l : List String) (m : Nat) (i : Nat)
      (acc : List (Expression U)) (st : EvalState U),
      evalChildren (l.length + m + 1) st.etp (l.map Expression.str) i acc st =
        CRes.ok (acc.reverse ++ l.map Expression.str) st := by
  intro l
  induction l with
  | nil =>
    intro m i acc st
    simp [evalChildren]
  | cons s rest ihl =>
    intro m i acc st
    have harith : (s :: rest).length + m + 1 = rest.length + m + 1 + 1 := by
      simp only [List.length_cons]
      omega
    rw [harith]
    simp only [List.map_cons]
    rw [show evalChildren (rest.length + m + 1 + 1) st.etp
        (Expression.str s :: rest.map Expression.str) i acc st =
        match doEvaluate (rest.length + m + 1) (Expression.str s)
            (setEtp st (appendChild st.etp i)) with
        | DRes.ok e' st' => evalChildren (rest.length + m + 1) st.etp
            (rest.map Expression.str) (i + 1) (e' :: acc) (setEtp st' st.etp)
        | DRes.thrown t st' => CRes.thrown t st'
        | DRes.fuelOut => CRes.fuelOut from rfl]
    rw [show doEvaluate (rest.length + m + 1) (Expression.str s)
        (setEtp st (appendChild st.etp i)) =
        DRes.ok (Expression.str s) (setEtp st (appendChild st.etp i)) from rfl]
    dsimp only
    rw [show setEtp (setEtp st (appendChild st.etp i)) st.etp = st from rfl]
    rw [ihl m (i + 1) (Expression.str s :: acc) st]
    simp

theorem allStrings_map (l : List String) :
    ((l.map (Expression.str (U := U))).all
      fun e => match e with | .str _ => true | _ => false) = true := by
  induction l with
  | nil => rfl
  | cons s rest ihl => simp only [List.map_cons, List.all_cons, ihl]; rfl

theorem filterMap_strings (l : List String) :
    ((l.map (Expression.str (U := U))).filterMap
      fun e => match e with | .str s => some s | _ => none) = l := by
  induction l with
  | nil => rfl
  | cons s rest ihl => simp only [List.map_cons, List.filterMap_cons, ihl]

theorem simplify_strings (l : List String) :
    simplifyExpressionsArray (U := U) (l.map Expression.str) =
      Sum.inl (.str (String.join l)) := by
  match l with
  | [] => rfl
  | [s] => rfl
  | s1 :: s2 :: rest =>
    simp only [List.map_cons, simplifyExpressionsArray]
    rw [show ((Expression.str s1 (U := U)) :: Expression.str s2 :: rest.map Expression.str).all
        (fun e => match e with | .str _ => true | _ => false) = true from by
      have h1 := allStrings_map (U := U) (s1 :: s2 :: rest)
      simp only [List.map_cons] at h1
      exact h1]
    rw [show ((Expression.str s1 (U := U)) :: Expression.str s2 :: rest.map Expression.str).filterMap
        (fun e => match e with | .str s => some s | _ => none) = s1 :: s2 :: rest from by
      have h2 := filterMap_strings (U := U) (s1 :: s2 :: rest)
      simp only [List.map_cons] at h2
      exact h2]
    simp

theorem fragLit_doEvaluate {U : Type} (l : List String) (n : Nat) (d : DebugInfo)
    (st0 : EvalState U) :
    doEvaluate (l.length + n + 3) (.fragment (l.map .str) d) st0 =
      .ok (.str (String.join l)) (popDbgIf d (pushDbgIf d st0)) := by
  rw [show l.length + n + 3 = (l.length + n + 2) + 1 from rfl]
  rw [show doEvaluate ((l.length + n + 2) + 1)
      (Expression.fragment (l.map Expression.str) d) st0 =
      applyPop (dbgOf (.fragment (l.map .str) d))
        (doEvalBody (l.length + n + 2) (.fragment (l.map .str) d)
          (pushDbgIf (dbgOf (.fragment (l.map .str) d)) st0)) from rfl]
  rw [show l.length + n + 2 = (l.length + n + 1) + 1 from rfl]
  rw [show doEvalBody ((l.length + n + 1) + 1)
      (Expression.fragment (l.map Expression.str) d)
      (pushDbgIf (dbgOf (.fragment (l.map .str) d)) st0) =
      (match evalChildren (l.length + n + 1)
          (pushDbgIf (dbgOf (.fragment (l.map .str) d)) st0).etp
          (l.map Expression.str) 0 []
          (pushDbgIf (dbgOf (.fragment (l.map .str) d)) st0) with
       | CRes.ok allEvaluated st' =>
         (match simplifyExpressionsArray allEvaluated with
          | Sum.inl e => DRes.ok e st'
          | Sum.inr compressed => DRes.ok (.fragment compressed d) st')
       | CRes.thrown t st' => DRes.thrown t st'
       | CRes.fuelOut => DRes.fuelOut) from rfl]
  rw [evalChildren_strings l n 0 []]
  dsimp only [List.reverse_nil, List.nil_append]
  rw [simplify_strings l]
  rfl

/-- C3: a fragment whose children are all string literals evaluates, for
any sufficient fuel, to the concatenation of the children in order. -/
theorem c3_fragment_concat {U : Type} (l : List String) (n : Nat)
    (d : DebugInfo) (u0 : U) :
    resultString (evaluate (l.length + n + 4)
      (.fragment (l.map .str) d) (initState u0)) = some (String.join l) := by
  have hd := fragLit_doEvaluate (U := U) l n d (initState u0)
  rw [popDbgIf_pushDbgIf] at hd
  rw [show l.length + n + 4 = (l.length + n + 3) + 1 from rfl]
  rw [show evaluate ((l.length + n + 3) + 1)
      (Expression.fragment (l.map Expression.str) d) (initState u0) =
      (match evalLoop ((l.length + n + 3) + 1)
          (Expression.fragment (l.map Expression.str) d) (initState u0) with
       | LoopOut.ok s st' => EvalOut.ok s st'
       | LoopOut.gaveUp st' => EvalOut.fail st'
       | LoopOut.thrown t st' =>
         if t = Thrown.halt then EvalOut.fail st' else EvalOut.err t st'
       | LoopOut.fuelOut => EvalOut.fuelOut) from rfl]
  rw [show evalLoop ((l.length + n + 3) + 1)
      (Expression.fragment (l.map Expression.str) d) (initState u0) =
      (match doEvaluate (l.length + n + 3)
          (Expression.fragment (l.map Expression.str) d) (initState u0) with
       | DRes.thrown t st' => LoopOut.thrown t st'
       | DRes.fuelOut => LoopOut.fuelOut
       | DRes.ok e' st' =>
         if st'.madeProgressThisRound then
           evalLoop (l.length + n + 3) e' (nextRound st')
         else if st'.haveToMakeProgress then
           LoopOut.gaveUp st'
         else
           evalLoop (l.length + n + 3) e'
             (nextRound { st' with haveToMakeProgress := true })) from rfl]
  rw [hd]
  rfl

/-! ## Projection lemmas for the state helpers -/

theorem pushDbgIf_madeProgress (d : DebugInfo) (st : EvalState U) :
    (pushDbgIf d st).madeProgressThisRound = st.madeProgressThisRound := by
  unfold pushDbgIf; split <;> rfl

theorem pushDbgIf_haveTo (d : DebugInfo) (st : EvalState U) :
    (pushDbgIf d st).haveToMakeProgress = st.haveToMakeProgress := by
  unfold pushDbgIf; split <;> rfl

theorem popDbgIf_madeProgress (d : DebugInfo) (st : EvalState U) :
    (popDbgIf d st).madeProgressThisRound = st.madeProgressThisRound := by
  unfold popDbgIf; split <;> rfl

theorem popDbgIf_haveTo (d : DebugInfo) (st : EvalState U) :
    (popDbgIf d st).haveToMakeProgress = st.haveToMakeProgress := by
  unfold popDbgIf; split <;> rfl

theorem setUser_madeProgress (st : EvalState U) (u : U) :
    (setUser st u).madeProgressThisRound = st.madeProgressThisRound := rfl

theorem setUser_haveTo (st : EvalState U) (u : U) :
    (setUser st u).haveToMakeProgress = st.haveToMakeProgress := rfl

theorem setProgress_madeProgress (st : EvalState U) :
    (setProgress st).madeProgressThisRound = true := rfl

theorem nextRound_haveTo (st : EvalState U) :
    (nextRound st).haveToMakeProgress = st.haveToMakeProgress := rfl

theorem nextRound_madeProgress (st : EvalState U) :
    (nextRound st).madeProgressThisRound = false := rfl

theorem nextRound_round (st : EvalState U) :
    (nextRound st).round = st.round + 1 := rfl

theorem setMustProgress_haveTo (st : EvalState U) :
    (setMustProgress st).haveToMakeProgress = true := rfl

theorem pendingRoundState_madeProgress
    (f : CtxView → U → (Except Thrown (Option (Expression U))) × U)
    (d : DebugInfo) (st : EvalState U) :
    (pendingRoundState f d st).madeProgressThisRound =
      st.madeProgressThisRound := by
  unfold pendingRoundState
  rw [popDbgIf_madeProgress, setUser_madeProgress, pushDbgIf_madeProgress]

theorem pendingRoundState_haveTo
    (f : CtxView → U → (Except Thrown (Option (Expression U))) × U)
    (d : DebugInfo) (st : EvalState U) :
    (pendingRoundState f d st).haveToMakeProgress =
      st.haveToMakeProgress := by
  unfold pendingRoundState
  rw [popDbgIf_haveTo, setUser_haveTo, pushDbgIf_haveTo]

theorem resolveRoundState_madeProgress
    (g : CtxView → U → (Except Thrown (Option (Expression U))) × U)
    (d : DebugInfo) (st : EvalState U) :
    (resolveRoundState g d st).madeProgressThisRound = true := by
  unfold resolveRoundState
  rw [popDbgIf_madeProgress, setProgress_madeProgress]

theorem ctxView_haveTo (st : EvalState U) :
    (ctxView st).haveToMakeProgress = st.haveToMakeProgress := rfl

/-! ## One-step unfolding lemmas -/

theorem doEvaluate_str (fuel : Nat) (s : String) (st : EvalState U) :
    doEvaluate (fuel + 1) (.str s) st = .ok (.str s) st := rfl

theorem doEvaluate_succ (fuel : Nat) (e : Expression U) (st : EvalState U) :
    doEvaluate (fuel + 1) e st =
      match e with
      | .str s => .ok (.str s) st
      | e => applyPop (dbgOf e) (doEvalBody fuel e (pushDbgIf (dbgOf e) st)) := by
  cases e <;> rfl

theorem evalLoop_succ (fuel : Nat) (e : Expression U) (st : EvalState U) :
    evalLoop (fuel + 1) e st =
      match e with
      | .str s => .ok s st
      | e =>
        match doEvaluate fuel e st with
        | .thrown t st' => .thrown t st'
        | .fuelOut => .fuelOut
        | .ok e' st' =>
          if st'.madeProgressThisRound then
            evalLoop fuel e' (nextRound st')
          else if st'.haveToMakeProgress then
            .gaveUp st'
          else
            evalLoop fuel e' (nextRound (setMustProgress st')) := by
  cases e <;> rfl

theorem doEvalBody_impure (fuel : Nat)
    (f : CtxView → U → (Except Thrown (Option (Expression U))) × U)
    (d : DebugInfo) (st : EvalState U) :
    doEvalBody (fuel + 1) (.impure f d) st =
      match (f (ctxView st) st.user).1 with
      | .error t => .thrown t (setUser st (f (ctxView st) st.user).2)
      | .ok none => .ok (.impure f d) (setUser st (f (ctxView st) st.user).2)
      | .ok (some unthunk) =>
        doEvaluate fuel unthunk
          (setProgress (setUser st (f (ctxView st) st.user).2)) := rfl

/-! ## Rounds of a single impure expression -/

theorem doEvaluate_impure_pending
    {f : CtxView → U → (Except Thrown (Option (Expression U))) × U}
    {d : DebugInfo} (fuel : Nat) (st : EvalState U)
    (hf1 : (f (ctxView (pushDbgIf d st)) (pushDbgIf d st).user).1 =
      Except.ok none) :
    doEvaluate (fuel + 2) (.impure f d) st =
      .ok (.impure f d) (pendingRoundState f d st) := by
  rw [show fuel + 2 = (fuel + 1) + 1 from rfl]
  rw [doEvaluate_succ]
  dsimp only [dbgOf]
  rw [doEvalBody_impure]
  rw [hf1]
  rfl

theorem doEvaluate_impure_resolve_str
    {g : CtxView → U → (Except Thrown (Option (Expression U))) × U}
    {d : DebugInfo} (fuel : Nat) (st : EvalState U) (s : String)
    (hg1 : (g (ctxView (pushDbgIf d st)) (pushDbgIf d st).user).1 =
      Except.ok (some (.str s))) :
    doEvaluate (fuel + 3) (.impure g d) st =
      .ok (.str s) (resolveRoundState g d st) := by
  rw [show fuel + 3 = (fuel + 2) + 1 from rfl]
  rw [doEvaluate_succ]
  dsimp only [dbgOf]
  rw [doEvalBody_impure]
  rw [hg1]
  dsimp only
  rw [doEvaluate_str]
  rfl

theorem evalLoop_always_pending
    {f : CtxView → U → (Except Thrown (Option (Expression U))) × U}
    (d : DebugInfo) (n : Nat) (st0 : EvalState U)
    (hf : ∀ c u, (f c u).1 = Except.ok none)
    (hm : st0.madeProgressThisRound = false)
    (hh : st0.haveToMakeProgress = false) :
    evalLoop (n + 4) (.impure f d) st0 =
      .gaveUp (pendingRoundState f d
        (nextRound (setMustProgress (pendingRoundState f d st0)))) := by
  rw [show n + 4 = (n + 3) + 1 from rfl]
  rw [evalLoop_succ]
  dsimp only
  rw [show n + 3 = (n + 1) + 2 from rfl]
  rw [doEvaluate_impure_pending (n + 1) st0 (hf _ _)]
  dsimp only
  simp only [pendingRoundState_madeProgress, pendingRoundState_haveTo, hm, hh,
    Bool.false_eq_true, if_false]
  rw [show n + 1 + 2 = (n + 2) + 1 from rfl]
  rw [evalLoop_succ]
  dsimp only
  rw [doEvaluate_impure_pending n _ (hf _ _)]
  dsimp only
  simp only [pendingRoundState_madeProgress, pendingRoundState_haveTo,
    nextRound_madeProgress, nextRound_haveTo, setMustProgress_haveTo,
    Bool.false_eq_true, if_false, if_true]

theorem evalLoop_grace
    {g : CtxView → U → (Except Thrown (Option (Expression U))) × U}
    (d : DebugInfo) (n : Nat) (s : String) (st0 : EvalState U)
    (hg : ∀ c u, (g c u).1 =
      if c.haveToMakeProgress then Except.ok (some (.str s))
      else Except.ok none)
    (hm : st0.madeProgressThisRound = false)
    (hh : st0.haveToMakeProgress = false) :
    evalLoop (n + 5) (.impure g d) st0 =
      .ok s (nextRound (resolveRoundState g d
        (nextRound (setMustProgress (pendingRoundState g d st0))))) := by
  rw [show n + 5 = (n + 4) + 1 from rfl]
  rw [evalLoop_succ]
  dsimp only
  rw [show n + 4 = (n + 2) + 2 from rfl]
  rw [doEvaluate_impure_pending (n + 2) st0 (by
    rw [hg]
    simp only [ctxView_haveTo, pushDbgIf_haveTo, hh, Bool.false_eq_true,
      if_false])]
  dsimp only
  simp only [pendingRoundState_madeProgress, pendingRoundState_haveTo, hm, hh,
    Bool.false_eq_true, if_false]
  rw [show n + 2 + 2 = (n + 3) + 1 from rfl]
  rw [evalLoop_succ]
  dsimp only
  rw [doEvaluate_impure_resolve_str n _ s (by
    rw [hg]
    simp only [ctxView_haveTo, pushDbgIf_haveTo, nextRound_haveTo,
      setMustProgress_haveTo, if_true])]
  dsimp only
  simp only [resolveRoundState_madeProgress, if_true]
  rw [show n + 3 = (n + 2) + 1 from rfl]
  rw [evalLoop_succ]

/-! ## C1 -/

/-- C1: an effect that always signals pending makes `evaluate` fail with
`didGiveUp()` true afterwards, and an effect that produces a literal
exactly when `mustMakeProgress()` is true resolves to that literal on the
grace round instead of being reported as deadlocked. -/
theorem c1_deadlock_and_grace {U : Type}
    (f g : CtxView → U → (Except Thrown (Option (Expression U))) × U)
    (s : String) (d1 d2 : DebugInfo) (u0 : U) (n : Nat)
    (hf : ∀ c u, (f c u).1 = Except.ok none)
    (hg : ∀ c u, (g c u).1 =
      if c.haveToMakeProgress then Except.ok (some (.str s))
      else Except.ok none) :
    (isFailOut (evaluate (n + 4) (.impure f d1) (initState u0)) = true ∧
     didGiveUpAfter (evaluate (n + 4) (.impure f d1) (initState u0)) = true) ∧
    resultString (evaluate (n + 5) (.impure g d2) (initState u0)) = some s := by
  constructor
  · have hL := evalLoop_always_pending d1 n (initState u0) hf rfl rfl
    constructor
    · simp only [evaluate, hL, isFailOut]
    · simp only [evaluate, hL, didGiveUpAfter, stateAfter, Option.elim,
        didGiveUp, pendingRoundState_madeProgress, pendingRoundState_haveTo,
        nextRound_madeProgress, nextRound_haveTo, setMustProgress_haveTo]
      rfl
  · have hL := evalLoop_grace d2 n s (initState u0) hg rfl rfl
    simp only [evaluate, hL, resultString]

/-! ## C2 -/

/-- C2 fails as stated: with `k = 2` the effect is invoked only twice,
both times pending, and `evaluate` gives up after two rounds instead of
resolving. -/
theorem c2_counterexample :
    isFailOut (evaluate 10 (pendingK 2 "done") (initState (0, 0))) = true ∧
    (stateAfter (evaluate 10 (pendingK 2 "done") (initState (0, 0)))).map
      (fun st => st.user.1) = some 2 ∧
    (stateAfter (evaluate 10 (pendingK 2 "done") (initState (0, 0)))).map
      EvalState.round = some 1 :=
  ⟨rfl, rfl, rfl⟩

/-- C2 (amended): for `k ≤ 1`, an effect pending on its first `k`
invocations resolves to its literal after exactly `k + 1` rounds, with
`getRound()` equal to `k` at the resolving invocation. -/
theorem c2_amended_pending_k (k : Nat) (hk : k ≤ 1) (n : Nat) (s : String) :
    resultString (evaluate (n + 5) (pendingK k s) (initState (0, 0))) =
      some s ∧
    (stateAfter (evaluate (n + 5) (pendingK k s) (initState (0, 0)))).map
      EvalState.round = some (k + 1) ∧
    (stateAfter (evaluate (n + 5) (pendingK k s) (initState (0, 0)))).map
      (fun st => st.user.2) = some k := by
  interval_cases k
  · exact ⟨rfl, rfl, rfl⟩
  · exact ⟨rfl, rfl, rfl⟩

theorem c2_witness :
    resultString (evaluate (0 + 5) (pendingK 1 "done") (initState (0, 0))) =
      some "done" ∧
    (stateAfter (evaluate (0 + 5) (pendingK 1 "done") (initState (0, 0)))).map
      EvalState.round = some 2 ∧
    (stateAfter (evaluate (0 + 5) (pendingK 1 "done") (initState (0, 0)))).map
      (fun st => st.user.2) = some 1 :=
  c2_amended_pending_k 1 (by decide) 0 "done"

/-! ## C4 -/

/-- C4 (amended): whenever the round loop concludes normally — success or
the give-up failure, with no thrown halt signal — every lifecycle tag has
as many `pre` records as `post` records. -/
theorem c4_lifecycle_pairing {U : Type} (fuel : Nat) (e : Expression U)
    (u0 : U) (st' : EvalState U)
    (h : loopOkOrGaveUp (evalLoop fuel e (initState u0)) = some st') :
    ∀ x, st'.preEvents.count x = st'.postEvents.count x := by
  have hb := (evalLoop_inv fuel e (initState u0) st' h).2
  intro x
  have hc := hb x
  simp only [initState, List.count_nil] at hc
  omega

theorem c4_witness : stLife.preEvents.count 7 = stLife.postEvents.count 7 :=
  c4_lifecycle_pairing 5 lifeDone () stLife rfl 7

/-- C4 fails when the halt signal terminates evaluation while the inner
expression is being reduced: `pre` has run once more than `post`. -/
theorem c4_counterexample :
    evaluate 6 lifecycleHalt (initState ()) = .fail stC4halt ∧
    stC4halt.preEvents.count 7 ≠ stC4halt.postEvents.count 7 :=
  ⟨rfl, by decide⟩

/-! ## C5 -/

/-- C5: for the positions recorded at the first and second child of the
same fragment, `isStrictlyEarlierThan` returns true in *both* directions
(the claim and the method's own documentation require the second direction
to be false); the two positions are not equal, so this is not the
reflexive edge case. -/
theorem c5_sibling_order :
    isStrictlyEarlierThan etpChild0 etpChild1 = true ∧
    isStrictlyEarlierThan etpChild1 etpChild0 = true ∧
    etpEquals etpChild0 etpChild1 = false :=
  ⟨rfl, rfl, rfl⟩

/-! ## C6 -/

/-- C6 fails on the code: evaluating a one-literal fragment succeeds, yet
`didGiveUp()` returns true afterwards, because `haveToMakeProgress` was
set during the single (progress-free) round and `madeProgressThisRound`
is reset at the end of every round. -/
theorem c6_success_but_gave_up :
    resultString (evaluate 5 pureFrag (initState ())) = some "a" ∧
    didGiveUpAfter (evaluate 5 pureFrag (initState ())) = true :=
  ⟨rfl, rfl⟩

/-! ## C7 -/

theorem mergeRunsSpec_strstr (t s : String) (rest : List (Expression U)) :
    mergeRunsSpec (.str t :: .str s :: rest) =
      mergeRunsSpec (.str (t ++ s) :: rest) := by
  cases hr : mergeRunsSpec rest with
  | nil => simp [mergeRunsSpec, hr]
  | cons hd tl =>
    cases hd <;> simp [mergeRunsSpec, hr, String.append_assoc]

theorem modMergeLoop_spec {U : Type} :
    ∀ l : List (Expression U),
      (∀ acc, modMergeLoop acc false l = acc.reverse ++ mergeRunsSpec l) ∧
      (∀ acc t, modMergeLoop (.str t :: acc) true l =
        acc.reverse ++ mergeRunsSpec (.str t :: l)) := by
  intro l
  induction l with
  | nil =>
    constructor
    · intro acc
      simp [modMergeLoop, mergeRunsSpec]
    · intro acc t
      simp [modMergeLoop, mergeRunsSpec]
  | cons c rest ih =>
    obtain ⟨ihP, ihQ⟩ := ih
    constructor
    · intro acc
      cases c with
      | str s =>
        simp only [modMergeLoop, Bool.false_eq_true, if_false]
        rw [ihQ acc s]
      | fragment cs d =>
        simp only [modMergeLoop]
        rw [ihP]
        simp [mergeRunsSpec]
      | impure f d =>
        simp only [modMergeLoop]
        rw [ihP]
        simp [mergeRunsSpec]
      | lifecycle inner pre post d =>
        simp only [modMergeLoop]
        rw [ihP]
        simp [mergeRunsSpec]
      | map inner f d =>
        simp only [modMergeLoop]
        rw [ihP]
        simp [mergeRunsSpec]
      | macroExp inner d =>
        simp only [modMergeLoop]
        rw [ihP]
        simp [mergeRunsSpec]
    · intro acc t
      cases c with
      | str s =>
        simp only [modMergeLoop, mergeIntoLast, if_true]
        rw [ihQ acc (t ++ s)]
        rw [mergeRunsSpec_strstr]
      | fragment cs d =>
        simp only [modMergeLoop]
        rw [ihP]
        simp [mergeRunsSpec]
      | impure f d =>
        simp only [modMergeLoop]
        rw [ihP]
        simp [mergeRunsSpec]
      | lifecycle inner pre post d =>
        simp only [modMergeLoop]
        rw [ihP]
        simp [mergeRunsSpec]
      | map inner f d =>
        simp only [modMergeLoop]
        rw [ihP]
        simp [mergeRunsSpec]
      | macroExp inner d =>
        simp only [modMergeLoop]
        rw [ihP]
        simp [mergeRunsSpec]

/-- C7 (amended): the `mod.ts` fragment pass merges every maximal run of
consecutive string entries into one concatenated entry, exactly as the
specification words it; the current (`tests.tsx`) evaluator instead keeps
a mixed children array unchanged — `simplifyExpressionsArray` only
collapses an array when every entry is a string. -/
theorem c7_merge_behaviour {U : Type} (l : List (Expression U)) :
    modMergeLoop [] false l = mergeRunsSpec l ∧
    (2 ≤ l.length →
      l.all (fun e => match e with | .str _ => true | _ => false) = false →
      simplifyExpressionsArray l = Sum.inr l) := by
  constructor
  · have h := (modMergeLoop_spec l).1 []
    simpa using h
  · intro hlen hmix
    match l, hlen with
    | a :: b :: rest, _ =>
      simp only [simplifyExpressionsArray]
      rw [hmix]
      simp

theorem c7_witness :
    modMergeLoop [] false [Expression.str "a", Expression.str "b",
      alwaysPendingEff] =
      mergeRunsSpec [Expression.str "a", Expression.str "b",
        alwaysPendingEff] ∧
    simplifyExpressionsArray [Expression.str "a", Expression.str "b",
      alwaysPendingEff] =
      Sum.inr [Expression.str "a", Expression.str "b", alwaysPendingEff] :=
  ⟨(c7_merge_behaviour _).1,
   (c7_merge_behaviour _).2 (by decide) rfl⟩

/-- C7 fails on the current evaluator: one reduction pass over a fragment
leaving `"a"`, `"b"` and a pending effect rebuilds the fragment with the
two adjacent reduced strings still stored as separate entries. -/
theorem c7_counterexample :
    doEvaluate 10 fragMixed (initState ()) =
      .ok (.fragment [.str "a", .str "b", alwaysPendingEff] emptyDbg)
        (initState ()) ∧
    simplifyExpressionsArray [Expression.str "a", Expression.str "b",
      alwaysPendingEff] =
      Sum.inr [Expression.str "a", Expression.str "b", alwaysPendingEff] :=
  ⟨rfl, rfl⟩

/-! ## C8 -/

/-- C8 (amended): whenever a reduction step returns normally, the
diagnostic stack afterwards equals the diagnostic stack from before — in
particular every primary push was popped again.  (When the halt signal is
thrown there is no `finally`, and the pushed frame stays: see the
counterexample.) -/
theorem c8_stack_restored {U : Type} (fuel : Nat) (e : Expression U)
    (st : EvalState U) (e' : Expression U) (st' : EvalState U)
    (h : doEvaluate fuel e st = .ok e' st') : st'.stack = st.stack :=
  ((evalInvariants fuel).1 e st e' st' h).1

theorem c8_witness : (initState ()).stack = (initState ()).stack :=
  c8_stack_restored 3 (.fragment [] primaryDbg) (initState ())
    (.str "") (initState ()) rfl

/-- C8 fails as stated for the halt signal: when the child of a fragment
carrying primary debugging information halts, the thrown signal skips the
pop, leaving the pushed frame on the diagnostic stack. -/
theorem c8_counterexample :
    doEvaluate 5 fragWithHalt (initState ()) = .thrown .halt stAfterHalt ∧
    stAfterHalt.stack ≠ (initState ()).stack :=
  ⟨rfl, by decide⟩

/-! ## C9 -/

/-- C9: `evaluate` never lets the halt signal escape — a thrown halt is
converted into the `null` failure return — while every other thrown value
propagates to the caller unchanged. -/
theorem c9_halt_conversion {U : Type} (fuel : Nat) (e : Expression U)
    (st : EvalState U) :
    (∀ st', evaluate fuel e st ≠ .err Thrown.halt st') ∧
    (∀ st', evalLoop fuel e st = .thrown Thrown.halt st' →
      evaluate fuel e st = .fail st') ∧
    (∀ t st', t ≠ Thrown.halt → evalLoop fuel e st = .thrown t st' →
      evaluate fuel e st = .err t st') := by
  refine ⟨?_, ?_, ?_⟩
  · intro st' hcontra
    cases hl : evalLoop fuel e st with
    | ok s st2 =>
      have he : evaluate fuel e st = .ok s st2 := by
        unfold evaluate; rw [hl]
      rw [he] at hcontra
      exact EvalOut.noConfusion hcontra
    | gaveUp st2 =>
      have he : evaluate fuel e st = .fail st2 := by
        unfold evaluate; rw [hl]
      rw [he] at hcontra
      exact EvalOut.noConfusion hcontra
    | thrown t st2 =>
      by_cases ht : t = Thrown.halt
      · have he : evaluate fuel e st = .fail st2 := by
          unfold evaluate; rw [hl]; dsimp only; rw [if_pos ht]
        rw [he] at hcontra
        exact EvalOut.noConfusion hcontra
      · have he : evaluate fuel e st = .err t st2 := by
          unfold evaluate; rw [hl]; dsimp only; rw [if_neg ht]
        rw [he] at hcontra
        injection hcontra with h1 h2
        exact ht h1
    | fuelOut =>
      have he : evaluate fuel e st = .fuelOut := by
        unfold evaluate; rw [hl]
      rw [he] at hcontra
      exact EvalOut.noConfusion hcontra
  · intro st' hl
    unfold evaluate
    rw [hl]
    dsimp only
    rw [if_pos rfl]
  · intro t st' ht hl
    unfold evaluate
    rw [hl]
    dsimp only
    rw [if_neg ht]

theorem c9_witness :
    evaluate 5 haltingEff (initState ()) = .fail (initState ()) ∧
    evaluate 5 throwingEff (initState ()) = .err (Thrown.err 9) (initState ()) :=
  ⟨(c9_halt_conversion 5 haltingEff (initState ())).2.1 (initState ()) rfl,
   (c9_halt_conversion 5 throwingEff (initState ())).2.2 (Thrown.err 9)
     (initState ()) (by decide) rfl⟩

/-! ## C10 -/

theorem perMacroGet_mem {m : Nat} {l : List (Nat × List LogLevel)}
    {s : List LogLevel} (h : perMacroGet m l = some s) :
    ∃ k, (k, s) ∈ l := by
  induction l with
  | nil => exact absurd h (by simp [perMacroGet])
  | cons p rest ih =>
    obtain ⟨k, s'⟩ := p
    simp only [perMacroGet] at h
    split at h
    · injection h with h1
      exact ⟨k, by rw [← h1]; exact List.mem_cons_self _ _⟩
    · obtain ⟨k2, hm⟩ := ih h
      exact ⟨k2, List.mem_cons_of_mem _ hm⟩

/-- C10: under the invariant that stored per-macro stacks are nonempty,
`shouldLog` compares the level against the threshold resolved in the
specified order — the macro's private top when present, else the default
top, else the baseline `info`. -/
theorem c10_shouldLog_resolution (st : LogLevelStacks) (level : LogLevel)
    (mac : Option Nat) (hwf : wfStacks st) :
    shouldLog st level mac = logGte level (resolveThreshold st mac) := by
  cases mac with
  | none =>
    unfold shouldLog resolveThreshold
    dsimp only
    cases hdl : st.defaultLevel.head? <;> simp [hdl]
  | some m =>
    cases hpm : perMacroGet m st.perMacroLevels with
    | none =>
      unfold shouldLog resolveThreshold
      dsimp only
      rw [hpm]
      dsimp only
      cases hdl : st.defaultLevel.head? <;> simp [hdl]
    | some stk =>
      cases stk with
      | nil =>
        obtain ⟨k, hmem⟩ := perMacroGet_mem hpm
        exact absurd rfl (hwf _ hmem)
      | cons t restk =>
        unfold shouldLog resolveThreshold
        dsimp only
        rw [hpm]
        rfl

theorem c10_witness :
    shouldLog ⟨[.error], [(3, [.debug])]⟩ .trace (some 3) =
      logGte .trace (resolveThreshold ⟨[.error], [(3, [.debug])]⟩ (some 3)) :=
  c10_shouldLog_resolution _ _ _ (by unfold wfStacks; decide)

theorem c1_witness :
    (isFailOut (evaluate (0 + 4) alwaysPendingEff (initState ())) = true ∧
     didGiveUpAfter (evaluate (0 + 4) alwaysPendingEff (initState ())) = true) ∧
    resultString (evaluate (0 + 5) graceEff (initState ())) = some "fallback" :=
  c1_deadlock_and_grace (fun _ u => (Except.ok none, u))
    (fun c u =>
      (if c.haveToMakeProgress then Except.ok (some (.str "fallback"))
       else Except.ok none, u))
    "fallback" emptyDbg emptyDbg () 0
    (fun _ _ => rfl) (fun _ _ => rfl)

/-- C3 instance: the example from the specification. -/
theorem c3_example :
    resultString (evaluate 10 (.fragment [.str "Hello,", .str " ",
      .str "world!"] emptyDbg) (initState ())) = some "Hello, world!" :=
  rfl

end Macromania
